import Mathlib

/-!
# MIPT_Matrix: a verification development for `matrix.hpp`

`Matrix<N, M, T>` is a fixed-dimension matrix whose store `data_` is a
`std::vector<std::vector<T>>`.  The embedding keeps the store as a list of
lists, runs every `for` loop of the source as an explicit state-passing loop,
and makes the two places where the C++ program can stop or leave defined
behaviour explicit in the result type:

* the unchecked `data_[first][second]` of `operator()` returns `none` when an
  index is outside the store;
* a failing `assert` of the row-data constructor returns `none`.

Matrix parameters passed by `const&` are read-only values, except where the
source writes to the receiver while it reads the parameter: the scalar of
`operator*=` is a `ScalarRef`, which may point into the receiver.

The scalar type `T` is abstract: `T()` is the `0` of `Zero T`, and `+`, `-`,
`*`, `==` are the operations of `Add T`, `Sub T`, `Mul T`, `BEq T`, with no
laws assumed unless a theorem says so.
-/

namespace MIPT

/-! ## Loops and assertions -/

/-- The loop `for (size_t i = 0; i < n; ++i) body(i)` over a state `σ`; a body
that stops the program stops the loop. -/
def forLoop {σ : Type} (n : Nat) (body : Nat → σ → Option σ) (s : σ) : Option σ :=
  (List.range n).foldlM (fun acc i => body i acc) s

/-- The `assert(cond)` of `<cassert>`: the program goes on only when `cond` holds. -/
def assert (cond : Bool) : Option Unit :=
  if cond then some () else none

/-- Number of values of `size_t` (64-bit). -/
def SIZE_MOD : Nat := 18446744073709551616

/-- Subtraction of two `size_t` values, which wraps around. -/
def sizeSub (a b : Nat) : Nat := (a + SIZE_MOD - b % SIZE_MOD) % SIZE_MOD

/-! ## The container -/

/-- Source `template <size_t N, size_t M, typename T> class Matrix`: the only data
member is the store `data_`. -/
structure Matrix (N M : Nat) (T : Type) where
  data_ : List (List T)
deriving DecidableEq

variable {N M P : Nat} {T : Type}

/-- Source `Matrix()`: `data_(N, std::vector<T>(M, T()))`. -/
def Matrix.ctorDefault [Zero T] : Matrix N M T :=
  ⟨List.replicate N (List.replicate M (0 : T))⟩

/-- Source `Matrix(const T& elem)`: `data_(N, std::vector<T>(M, elem))`. -/
def Matrix.ctorFill (elem : T) : Matrix N M T :=
  ⟨List.replicate N (List.replicate M elem)⟩

/-- Source `Matrix(const std::vector<std::vector<T>>& data)`: copies `data` into the
store, then asserts the outer size and every row size. -/
def Matrix.ctorData (N M : Nat) (data : List (List T)) : Option (Matrix N M T) := do
  let self : Matrix N M T := ⟨data⟩
  assert (data.length == N)
  data.forM (fun row => assert (row.length == M))
  pure self

/-- Source `operator()(first, second) const`: `data_[first][second]`, unchecked in the
source, so `none` outside the store. -/
def Matrix.read (self : Matrix N M T) (first second : Nat) : Option T := do
  let row ← self.data_[first]?
  row[second]?

/-- Assignment through the reference returned by the mutable
`operator()(first, second)`, or through `data_[first][second]`. -/
def Matrix.write (self : Matrix N M T) (first second : Nat) (v : T) :
    Option (Matrix N M T) := do
  let row ← self.data_[first]?
  if second < row.length then
    pure ⟨self.data_.set first (row.set second v)⟩
  else
    none

/-- Source `operator+=`: `data_[i][j] += other.data_[i][j]` for every `i < N`,
`j < M`.  Each step reads `other` only at the cell it is about to update, so
taking `other` as a value is also right when `other` is the receiver. -/
def Matrix.addAssign [Add T] (self other : Matrix N M T) : Option (Matrix N M T) :=
  forLoop N (fun i self =>
    forLoop M (fun j self => do
      let x ← self.read i j
      let y ← other.read i j
      self.write i j (x + y)) self) self

/-- Source `operator-=`: `data_[i][j] -= other.data_[i][j]` for every `i < N`,
`j < M`. -/
def Matrix.subAssign [Sub T] (self other : Matrix N M T) : Option (Matrix N M T) :=
  forLoop N (fun i self =>
    forLoop M (fun j self => do
      let x ← self.read i j
      let y ← other.read i j
      self.write i j (x - y)) self) self

/-- What a `const T& scalar` parameter is bound to: an object outside the
matrix operand of the call, or the element `(first, second)` of that operand,
as in `a *= a(0, 0)`. -/
inductive ScalarRef (T : Type) where
  | outside (value : T)
  | element (first second : Nat)
deriving DecidableEq

/-- The value seen through the reference while its matrix operand has the
store of `owner`. -/
def ScalarRef.get (scalar : ScalarRef T) (owner : Matrix N M T) : Option T :=
  match scalar with
  | .outside value => some value
  | .element first second => owner.read first second

/-- The reference is to an object outside the matrix or to one of its `N×M`
elements. -/
def ScalarRef.InRange (scalar : ScalarRef T) (N M : Nat) : Prop :=
  match scalar with
  | .outside _ => True
  | .element first second => first < N ∧ second < M

/-- Source `operator*=(const T& scalar)`: `data_[i][j] *= scalar` for every
`i < N`, `j < M`.  The scalar is read through the reference at every step, so
a reference to an element of the receiver sees the writes of earlier steps. -/
def Matrix.mulAssign [Mul T] (self : Matrix N M T) (scalar : ScalarRef T) :
    Option (Matrix N M T) :=
  forLoop N (fun i self =>
    forLoop M (fun j self => do
      let x ← self.read i j
      let s ← scalar.get self
      self.write i j (x * s)) self) self

/-- Source `operator+(matrix, other)`: copy the left operand, then `+=`. -/
def Matrix.add [Add T] (matrix other : Matrix N M T) : Option (Matrix N M T) :=
  let result : Matrix N M T := matrix
  result.addAssign other

/-- Source `operator-(matrix, other)`: copy the left operand, then `-=`. -/
def Matrix.sub [Sub T] (matrix other : Matrix N M T) : Option (Matrix N M T) :=
  let result : Matrix N M T := matrix
  result.subAssign other

/-- Source `operator*(matrix, scalar)`: copy the matrix, then `*=`.  The
reference is to an object outside `matrix` or to an element of `matrix`, never
to the copy `result`, so during `result *= scalar` it is a reference to an
outside object with the value it shows in `matrix`. -/
def Matrix.mulScalar [Mul T] (matrix : Matrix N M T) (scalar : ScalarRef T) :
    Option (Matrix N M T) := do
  let result : Matrix N M T := matrix
  let value ← scalar.get matrix
  result.mulAssign (.outside value)

/-- Source `operator*(scalar, matrix)`: `return matrix * scalar`. -/
def Matrix.scalarMul [Mul T] (scalar : ScalarRef T) (matrix : Matrix N M T) :
    Option (Matrix N M T) :=
  matrix.mulScalar scalar

/-- Source `operator*(Matrix<N,M,T>, Matrix<M,P,T>)`: the triple loop over a
default-constructed result. -/
def Matrix.mul [Zero T] [Add T] [Mul T] (matrix : Matrix N M T) (other : Matrix M P T) :
    Option (Matrix N P T) :=
  forLoop N (fun i result =>
    forLoop P (fun j result =>
      forLoop M (fun k result => do
        let a ← matrix.read i k
        let b ← other.read k j
        let r ← result.read i j
        result.write i j (r + a * b)) result) result) Matrix.ctorDefault

/-- Source `Transposed()`: fills a default-constructed `Matrix<M, N, T>`. -/
def Matrix.Transposed [Zero T] (self : Matrix N M T) : Option (Matrix M N T) :=
  forLoop N (fun i result =>
    forLoop M (fun j result => do
      let x ← self.read i j
      result.write j i x) result) Matrix.ctorDefault

/-- Source `Trace()`: the `static_assert(N == M)` is the type `Matrix N N T`. -/
def Matrix.Trace [Zero T] [Add T] (self : Matrix N N T) : Option T :=
  forLoop N (fun i trace => do
    let x ← self.read i i
    pure (trace + x)) (0 : T)

/-- Source `operator==`: `data_ == other.data_`, the equality of `std::vector`
(same size and equal elements, recursively). -/
def Matrix.eq [BEq T] (self other : Matrix N M T) : Bool :=
  self.data_ == other.data_

/-- Source `operator<<(os, matrix)`: the stream is the text written so far, and
`render` is `os << x` for one scalar. -/
def Matrix.print (render : T → String) (os : String) (matrix : Matrix N M T) :
    Option String :=
  forLoop N (fun i os => do
    let os ← forLoop M (fun j os => do
      let x ← matrix.read i j
      let os := os ++ render x
      if j < sizeSub M 1 then pure (os ++ " ") else pure os) os
    pure (os ++ "\n")) os

/-! ## Reading the store in specifications -/

/-- The store is rectangular with the declared shape: `N` rows, each of
length `M`. -/
def Matrix.WF (self : Matrix N M T) : Prop :=
  self.data_.length = N ∧ ∀ row ∈ self.data_, row.length = M

/-- The entry at `(i, j)` as a value, for stating what an operation computes;
at an in-range position of a rectangular store it is what `read` returns
(`read_eq_some_val`), elsewhere it is `T()`. -/
def Matrix.val [Zero T] (self : Matrix N M T) (i j : Nat) : T :=
  (self.read i j).getD 0

/-- The sum `A(i,0)*B(0,j) + ... + A(i,m-1)*B(m-1,j)`, added up from `T()` in
increasing `k`. -/
def dotRow [Zero T] [Add T] [Mul T] (A : Matrix N M T) (B : Matrix M P T) (i j m : Nat) : T :=
  (List.range m).foldl (fun acc k => acc + A.val i k * B.val k j) 0

/-- One line of the dump as the specification words it: the renderings of
the row's entries joined by one space, then one newline. -/
def renderRow (render : T → String) (row : List T) : String :=
  " ".intercalate (row.map render) ++ "\n"

/-- The row-major dump as the specification words it: the lines of the rows,
in order. -/
def renderText (render : T → String) (rows : List (List T)) : String :=
  String.join (rows.map (renderRow render))

/-! ## A Scalar whose multiplication does not commute -/

/-- A type to instantiate `T` with: 2×2 integer matrices `[[a, b], [c, d]]`
under the usual sum and product (the library's own `Matrix<2, 2, int64_t>` is
such a type).  It has ring semantics, and its product is not commutative. -/
structure Mat2 where
  a : Int
  b : Int
  c : Int
  d : Int
deriving DecidableEq

instance : Zero Mat2 := ⟨⟨0, 0, 0, 0⟩⟩

instance : Add Mat2 := ⟨fun x y => ⟨x.a + y.a, x.b + y.b, x.c + y.c, x.d + y.d⟩⟩

instance : Mul Mat2 :=
  ⟨fun x y => ⟨x.a * y.a + x.b * y.c, x.a * y.b + x.b * y.d,
    x.c * y.a + x.d * y.c, x.c * y.b + x.d * y.d⟩⟩

/-! ## A Scalar whose equality is not reflexive -/

/-- A type to instantiate `T` with: integers together with one value `nan`
that compares unequal to everything, itself included, and that arithmetic
propagates, as the NaN of `double` does. -/
inductive NanInt where
  | num (n : Int)
  | nan

instance : Zero NanInt := ⟨.num 0⟩

instance : Add NanInt :=
  ⟨fun x y => match x, y with
    | .num a, .num b => .num (a + b)
    | _, _ => .nan⟩

instance : Sub NanInt :=
  ⟨fun x y => match x, y with
    | .num a, .num b => .num (a - b)
    | _, _ => .nan⟩

instance : Mul NanInt :=
  ⟨fun x y => match x, y with
    | .num a, .num b => .num (a * b)
    | _, _ => .nan⟩

instance : BEq NanInt :=
  ⟨fun x y => match x, y with
    | .num a, .num b => a == b
    | _, _ => false⟩

/-! ## Loop lemmas -/

theorem forLoop_zero {σ : Type} (body : Nat → σ → Option σ) (s : σ) :
    forLoop 0 body s = some s := by
  simp [forLoop]

theorem forLoop_succ {σ : Type} (n : Nat) (body : Nat → σ → Option σ) (s : σ) :
    forLoop (n + 1) body s = (forLoop n body s).bind (body n) := by
  simp [forLoop, List.range_succ, List.foldlM_append]

/-- Invariant rule for a loop whose every iteration goes through. -/
theorem forLoop_inv {σ : Type} (Inv : Nat → σ → Prop) (n : Nat)
    (body : Nat → σ → Option σ) (s0 : σ) (h0 : Inv 0 s0)
    (hstep : ∀ i s, i < n → Inv i s → ∃ s', body i s = some s' ∧ Inv (i + 1) s') :
    ∃ s', forLoop n body s0 = some s' ∧ Inv n s' := by
  induction n with
  | zero => exact ⟨s0, forLoop_zero body s0, h0⟩
  | succ k ih =>
    obtain ⟨s1, h1, hI⟩ := ih (fun i s hi => hstep i s (Nat.lt_succ_of_lt hi))
    obtain ⟨s2, h2, hI2⟩ := hstep k s1 (Nat.lt_succ_self k) hI
    exact ⟨s2, by rw [forLoop_succ, h1]; exact h2, hI2⟩

/-- Rule for the nested loop `for i < n, for j < m` whose body rewrites, at
each `(i, j)`, the cell that `view` shows at `(i, j)` from `old i j` to
`new i j` and leaves the other cells alone. -/
theorem forLoop2_cells {σ V : Type} (n m : Nat) (view : σ → Nat → Nat → Option V)
    (Good : σ → Prop) (body : Nat → Nat → σ → Option σ) (old new : Nat → Nat → V)
    (hbody : ∀ i j s, i < n → j < m → Good s → view s i j = some (old i j) →
      ∃ s', body i j s = some s' ∧ Good s' ∧ view s' i j = some (new i j) ∧
        ∀ i' j', i' < n → j' < m → ¬ (i' = i ∧ j' = j) → view s' i' j' = view s i' j')
    (s0 : σ) (hg : Good s0) (h0 : ∀ i j, i < n → j < m → view s0 i j = some (old i j)) :
    ∃ s', forLoop n (fun i s => forLoop m (fun j s => body i j s) s) s0 = some s' ∧
      Good s' ∧ ∀ i j, i < n → j < m → view s' i j = some (new i j) := by
  have houter := forLoop_inv
    (fun i s => Good s ∧ ∀ i' j', i' < n → j' < m →
      view s i' j' = some (if i' < i then new i' j' else old i' j'))
    n (fun i s => forLoop m (fun j s => body i j s) s) s0
    ⟨hg, fun i' j' hi' hj' => by simpa using h0 i' j' hi' hj'⟩
    (by
      intro i s hi ⟨hgs, hs⟩
      have hinner := forLoop_inv
        (fun j s => Good s ∧ ∀ i' j', i' < n → j' < m →
          view s i' j' = some (if i' < i ∨ (i' = i ∧ j' < j) then new i' j' else old i' j'))
        m (fun j s => body i j s) s
        ⟨hgs, fun i' j' hi' hj' => by
          rw [hs i' j' hi' hj']
          congr 1
          by_cases h : i' < i <;> simp [h]⟩
        (by
          intro j t hj ⟨hgt, ht⟩
          have hcur : view t i j = some (old i j) := by
            rw [ht i j hi hj]; simp
          obtain ⟨t', hb, hgt', hnew, hframe⟩ := hbody i j t hi hj hgt hcur
          refine ⟨t', hb, hgt', ?_⟩
          intro i' j' hi' hj'
          by_cases hc : i' = i ∧ j' = j
          · obtain ⟨rfl, rfl⟩ := hc
            rw [hnew]; simp
          · rw [hframe i' j' hi' hj' hc, ht i' j' hi' hj']
            congr 1
            have : (i' < i ∨ i' = i ∧ j' < j + 1) ↔ (i' < i ∨ i' = i ∧ j' < j) := by
              constructor
              · rintro (h | ⟨h1, h2⟩)
                · exact Or.inl h
                · refine Or.inr ⟨h1, ?_⟩
                  have : j' ≠ j := fun h => hc ⟨h1, h⟩
                  omega
              · rintro (h | ⟨h1, h2⟩)
                · exact Or.inl h
                · exact Or.inr ⟨h1, by omega⟩
            simp only [this])
      obtain ⟨t, ht, hgt, hI⟩ := hinner
      refine ⟨t, ht, hgt, ?_⟩
      intro i' j' hi' hj'
      rw [hI i' j' hi' hj']
      congr 1
      have : (i' < i ∨ i' = i ∧ j' < m) ↔ i' < i + 1 := by
        constructor
        · rintro (h | ⟨h1, _⟩) <;> omega
        · intro h
          by_cases h1 : i' < i
          · exact Or.inl h1
          · exact Or.inr ⟨by omega, hj'⟩
      simp only [this])
  obtain ⟨s', hs', hgs', hI⟩ := houter
  refine ⟨s', hs', hgs', ?_⟩
  intro i j hi hj
  rw [hI i j hi hj]; simp [hi]

/-! ## The store under `read` and `write` -/

theorem read_eq_some_val [Zero T] (A : Matrix N M T) (hA : A.WF) (i j : Nat)
    (hi : i < N) (hj : j < M) : A.read i j = some (A.val i j) := by
  obtain ⟨hlen, hrow⟩ := hA
  have hi' : i < A.data_.length := by omega
  have hmem : A.data_[i] ∈ A.data_ := List.getElem_mem hi'
  have hj' : j < (A.data_[i]).length := by rw [hrow _ hmem]; exact hj
  simp [Matrix.val, Matrix.read, List.getElem?_eq_getElem hi', List.getElem?_eq_getElem hj']

theorem write_spec (A : Matrix N M T) (hA : A.WF) (i j : Nat) (hi : i < N) (hj : j < M)
    (v : T) :
    ∃ R, A.write i j v = some R ∧ R.WF ∧ R.read i j = some v ∧
      ∀ i' j', ¬ (i' = i ∧ j' = j) → R.read i' j' = A.read i' j' := by
  obtain ⟨hlen, hrow⟩ := hA
  have hi' : i < A.data_.length := by omega
  have hmem : A.data_[i] ∈ A.data_ := List.getElem_mem hi'
  have hj' : j < (A.data_[i]).length := by rw [hrow _ hmem]; exact hj
  refine ⟨⟨A.data_.set i ((A.data_[i]).set j v)⟩, ?_, ⟨?_, ?_⟩, ?_, ?_⟩
  · simp [Matrix.write, List.getElem?_eq_getElem hi', hj']
  · simp [hlen]
  · intro row hmem'
    rcases List.mem_or_eq_of_mem_set hmem' with h | h
    · exact hrow row h
    · rw [h, List.length_set]; exact hrow _ hmem
  · simp [Matrix.read, List.getElem?_set, hi', hj']
  · intro i' j' hne
    by_cases h1 : i' = i
    · subst h1
      have h2 : j' ≠ j := fun h => hne ⟨rfl, h⟩
      simp [Matrix.read, List.getElem?_set, hi', List.getElem?_eq_getElem hi', Ne.symm h2]
    · simp [Matrix.read, List.getElem?_set, Ne.symm h1]

/-! ## What each operation does on rectangular stores -/

theorem ctorFill_WF (v : T) : (Matrix.ctorFill v : Matrix N M T).WF := by
  constructor
  · simp [Matrix.ctorFill]
  · intro row hrow
    simp only [Matrix.ctorFill] at hrow
    rw [List.eq_of_mem_replicate hrow, List.length_replicate]

theorem ctorFill_read (v : T) (i j : Nat) (hi : i < N) (hj : j < M) :
    (Matrix.ctorFill v : Matrix N M T).read i j = some v := by
  simp [Matrix.ctorFill, Matrix.read, List.getElem?_replicate, hi, hj]

theorem ctorDefault_eq_ctorFill [Zero T] :
    (Matrix.ctorDefault : Matrix N M T) = Matrix.ctorFill 0 := rfl

theorem ctorDefault_WF [Zero T] : (Matrix.ctorDefault : Matrix N M T).WF :=
  ctorFill_WF 0

theorem ctorDefault_read [Zero T] (i j : Nat) (hi : i < N) (hj : j < M) :
    (Matrix.ctorDefault : Matrix N M T).read i j = some 0 :=
  ctorFill_read 0 i j hi hj

theorem addAssign_cells [Zero T] [Add T] (A B : Matrix N M T) (hA : A.WF) (hB : B.WF) :
    ∃ R, A.addAssign B = some R ∧ R.WF ∧
      ∀ i j, i < N → j < M → R.read i j = some (A.val i j + B.val i j) := by
  refine forLoop2_cells N M (fun s i j => s.read i j) Matrix.WF _ A.val
    (fun i j => A.val i j + B.val i j) ?_ A hA
    (fun i j hi hj => read_eq_some_val A hA i j hi hj)
  intro i j s hi hj hs hcur
  obtain ⟨R, hw, hR, hnew, hframe⟩ := write_spec s hs i j hi hj (A.val i j + B.val i j)
  refine ⟨R, ?_, hR, hnew, fun i' j' _ _ hne => hframe i' j' hne⟩
  simp only [] at hcur
  simp [hcur, read_eq_some_val B hB i j hi hj, hw]

theorem subAssign_cells [Zero T] [Sub T] (A B : Matrix N M T) (hA : A.WF) (hB : B.WF) :
    ∃ R, A.subAssign B = some R ∧ R.WF ∧
      ∀ i j, i < N → j < M → R.read i j = some (A.val i j - B.val i j) := by
  refine forLoop2_cells N M (fun s i j => s.read i j) Matrix.WF _ A.val
    (fun i j => A.val i j - B.val i j) ?_ A hA
    (fun i j hi hj => read_eq_some_val A hA i j hi hj)
  intro i j s hi hj hs hcur
  obtain ⟨R, hw, hR, hnew, hframe⟩ := write_spec s hs i j hi hj (A.val i j - B.val i j)
  refine ⟨R, ?_, hR, hnew, fun i' j' _ _ hne => hframe i' j' hne⟩
  simp only [] at hcur
  simp [hcur, read_eq_some_val B hB i j hi hj, hw]

theorem mulAssign_cells [Zero T] [Mul T] (A : Matrix N M T) (hA : A.WF) (c : T) :
    ∃ R, A.mulAssign (.outside c) = some R ∧ R.WF ∧
      ∀ i j, i < N → j < M → R.read i j = some (A.val i j * c) := by
  refine forLoop2_cells N M (fun s i j => s.read i j) Matrix.WF _ A.val
    (fun i j => A.val i j * c) ?_ A hA
    (fun i j hi hj => read_eq_some_val A hA i j hi hj)
  intro i j s hi hj hs hcur
  obtain ⟨R, hw, hR, hnew, hframe⟩ := write_spec s hs i j hi hj (A.val i j * c)
  refine ⟨R, ?_, hR, hnew, fun i' j' _ _ hne => hframe i' j' hne⟩
  simp only [] at hcur
  simp [hcur, hw, ScalarRef.get]

theorem Transposed_cells [Zero T] (A : Matrix N M T) (hA : A.WF) :
    ∃ R, A.Transposed = some R ∧ R.WF ∧
      ∀ i j, i < N → j < M → R.read j i = some (A.val i j) := by
  refine forLoop2_cells N M (fun (s : Matrix M N T) i j => s.read j i) Matrix.WF _
    (fun _ _ => (0 : T)) A.val ?_ Matrix.ctorDefault ctorDefault_WF
    (fun i j hi hj => ctorDefault_read j i hj hi)
  intro i j s hi hj hs _
  obtain ⟨R, hw, hR, hnew, hframe⟩ := write_spec s hs j i hj hi (A.val i j)
  refine ⟨R, ?_, hR, hnew, fun i' j' _ _ hne => hframe j' i' (fun h => hne ⟨h.2, h.1⟩)⟩
  simp [read_eq_some_val A hA i j hi hj, hw]

theorem dotRow_succ [Zero T] [Add T] [Mul T] (A : Matrix N M T) (B : Matrix M P T)
    (i j m : Nat) : dotRow A B i j (m + 1) = dotRow A B i j m + A.val i m * B.val m j := by
  simp [dotRow, List.range_succ, List.foldl_append]

theorem mul_cells [Zero T] [Add T] [Mul T] (A : Matrix N M T) (B : Matrix M P T)
    (hA : A.WF) (hB : B.WF) :
    ∃ R, A.mul B = some R ∧ R.WF ∧
      ∀ i j, i < N → j < P → R.read i j = some (dotRow A B i j M) := by
  refine forLoop2_cells N P (fun (s : Matrix N P T) i j => s.read i j) Matrix.WF _
    (fun _ _ => (0 : T)) (fun i j => dotRow A B i j M) ?_ Matrix.ctorDefault ctorDefault_WF
    (fun i j hi hj => ctorDefault_read i j hi hj)
  intro i j s hi hj hs hcur
  have hk := forLoop_inv
    (fun k (t : Matrix N P T) => t.WF ∧ t.read i j = some (dotRow A B i j k) ∧
      ∀ i' j', ¬ (i' = i ∧ j' = j) → t.read i' j' = s.read i' j')
    M (fun k result => do
        let a ← A.read i k
        let b ← B.read k j
        let r ← result.read i j
        result.write i j (r + a * b)) s
    ⟨hs, by simpa [dotRow] using hcur, fun _ _ _ => rfl⟩
    (by
      intro k t hk ⟨ht, hval, hfr⟩
      obtain ⟨R, hw, hR, hnew, hframe⟩ :=
        write_spec t ht i j hi hj (dotRow A B i j k + A.val i k * B.val k j)
      refine ⟨R, ?_, hR, ?_, ?_⟩
      · simp [read_eq_some_val A hA i k hi hk, read_eq_some_val B hB k j hk hj, hval, hw]
      · rw [hnew, dotRow_succ]
      · intro i' j' hne
        rw [hframe i' j' hne, hfr i' j' hne])
  obtain ⟨R, hR, hwf, hval, hfr⟩ := hk
  exact ⟨R, hR, hwf, hval, fun i' j' _ _ hne => hfr i' j' hne⟩

theorem Trace_sum [Zero T] [Add T] (A : Matrix N N T) (hA : A.WF) :
    A.Trace = some ((List.range N).foldl (fun acc i => acc + A.val i i) 0) := by
  have h := forLoop_inv
    (fun i (t : T) => t = (List.range i).foldl (fun acc i => acc + A.val i i) 0)
    N (fun i trace => do
      let x ← A.read i i
      pure (trace + x)) (0 : T) (by simp)
    (by
      intro i t hi ht
      refine ⟨t + A.val i i, ?_, ?_⟩
      · simp [read_eq_some_val A hA i i hi hi]
      · simp [List.range_succ, List.foldl_append, ht])
  obtain ⟨t, h1, h2⟩ := h
  rw [← h2]; exact h1

/-! ## Equality of stores -/

theorem list_beq_iff {α : Type} [BEq α] (l1 l2 : List α) :
    (l1 == l2) = true ↔ l1.length = l2.length ∧
      ∀ i (h1 : i < l1.length) (h2 : i < l2.length), (l1[i] == l2[i]) = true := by
  show List.beq l1 l2 = true ↔ _
  induction l1 generalizing l2 with
  | nil =>
    cases l2 with
    | nil => simp
    | cons b bs => simp
  | cons a as ih =>
    cases l2 with
    | nil => simp
    | cons b bs =>
      rw [List.beq_cons₂, Bool.and_eq_true, ih bs]
      constructor
      · rintro ⟨hab, hlen, hrest⟩
        refine ⟨by simp [hlen], ?_⟩
        intro i h1 h2
        cases i with
        | zero => simpa using hab
        | succ k =>
          simp only [List.getElem_cons_succ]
          exact hrest k (by simpa using h1) (by simpa using h2)
      · rintro ⟨hlen, hall⟩
        refine ⟨by simpa using hall 0 (by simp) (by simp), by simpa using hlen, ?_⟩
        intro i h1 h2
        simpa using hall (i + 1) (by simpa using h1) (by simpa using h2)

theorem val_eq_getElem [Zero T] (A : Matrix N M T) (i j : Nat) (hi : i < A.data_.length)
    (hj : j < (A.data_[i]).length) : A.val i j = (A.data_[i])[j] := by
  simp [Matrix.val, Matrix.read, List.getElem?_eq_getElem hi, List.getElem?_eq_getElem hj]

theorem eq_cells [Zero T] [BEq T] (A B : Matrix N M T) (hA : A.WF) (hB : B.WF) :
    A.eq B = true ↔ ∀ i j, i < N → j < M → (A.val i j == B.val i j) = true := by
  obtain ⟨hAl, hAr⟩ := hA
  obtain ⟨hBl, hBr⟩ := hB
  unfold Matrix.eq
  rw [list_beq_iff]
  constructor
  · rintro ⟨_, hrows⟩ i j hi hj
    have h1 : i < A.data_.length := by omega
    have h2 : i < B.data_.length := by omega
    have hrow := (list_beq_iff _ _).1 (hrows i h1 h2)
    have h3 : j < (A.data_[i]).length := by rw [hAr _ (List.getElem_mem h1)]; exact hj
    have h4 : j < (B.data_[i]).length := by rw [hBr _ (List.getElem_mem h2)]; exact hj
    rw [val_eq_getElem A i j h1 h3, val_eq_getElem B i j h2 h4]
    exact hrow.2 j h3 h4
  · intro h
    refine ⟨by omega, ?_⟩
    intro i h1 h2
    rw [list_beq_iff]
    have hlA : (A.data_[i]).length = M := hAr _ (List.getElem_mem h1)
    have hlB : (B.data_[i]).length = M := hBr _ (List.getElem_mem h2)
    refine ⟨by omega, ?_⟩
    intro j h3 h4
    rw [← val_eq_getElem A i j h1 h3, ← val_eq_getElem B i j h2 h4]
    exact h i j (by omega) (by omega)

/-! ## The row-data constructor -/

theorem forM_assert_iff {α : Type} (p : α → Bool) (l : List α) :
    l.forM (fun a => assert (p a)) = some () ↔ ∀ a ∈ l, p a = true := by
  induction l with
  | nil => simp [List.forM]
  | cons a as ih =>
    by_cases h : p a = true
    · have ha : assert true = some () := rfl
      simp [List.forM, ha, ih, h]
    · have ha : assert false = none := rfl
      simp [List.forM, ha, h]

theorem ctorData_eq (data : List (List T)) :
    Matrix.ctorData N M data =
      if data.length = N ∧ ∀ row ∈ data, row.length = M then some ⟨data⟩ else none := by
  unfold Matrix.ctorData
  by_cases h1 : data.length = N
  · by_cases h2 : ∀ row ∈ data, row.length = M
    · have h3 : data.forM (fun row => assert (row.length == M)) = some () :=
        (forM_assert_iff _ _).2 (by simpa using h2)
      rw [h3, if_pos ⟨h1, h2⟩]; simp [assert, h1]
    · have h3 : data.forM (fun row => assert (row.length == M)) = none := by
        cases hc : data.forM (fun row => assert (row.length == M)) with
        | none => rfl
        | some u =>
          exact absurd (by simpa using (forM_assert_iff _ _).1 hc) h2
      rw [h3, if_neg (fun h => h2 h.2)]; simp [assert, h1]
  · simp [assert, h1]

/-! ## Textual rendering -/

theorem intercalate_go_snoc (sep acc a : String) (l : List String) :
    String.intercalate.go acc sep (l ++ [a]) = String.intercalate.go acc sep l ++ sep ++ a := by
  induction l generalizing acc with
  | nil => simp [String.intercalate.go]
  | cons b bs ih => simp [String.intercalate.go, ih]

theorem intercalate_snoc (sep a : String) (l : List String) :
    sep.intercalate (l ++ [a]) = if l = [] then a else sep.intercalate l ++ sep ++ a := by
  cases l with
  | nil => simp [String.intercalate, String.intercalate.go]
  | cons b bs => simp [String.intercalate, intercalate_go_snoc]

theorem join_snoc (l : List String) (a : String) :
    String.join (l ++ [a]) = String.join l ++ a := by
  simp [String.join, List.foldl_append]

theorem sizeSub_one (m : Nat) (h0 : 0 < m) (hm : m < SIZE_MOD) : sizeSub m 1 = m - 1 := by
  simp only [sizeSub, SIZE_MOD] at *
  omega

theorem print_row (render : T → String) (A : Matrix N M T) (hA : A.WF) (hM : M < SIZE_MOD)
    (i : Nat) (hi : i < A.data_.length) (os : String) :
    forLoop M (fun j os => do
      let x ← A.read i j
      let os := os ++ render x
      if j < sizeSub M 1 then pure (os ++ " ") else pure os) os
      = some (os ++ " ".intercalate ((A.data_[i]).map render)) := by
  have hlen : (A.data_[i]).length = M := hA.2 _ (List.getElem_mem hi)
  have h := forLoop_inv
    (fun j (t : String) => t = os ++ " ".intercalate (((A.data_[i]).take j).map render)
      ++ (if 0 < j ∧ j < M then " " else ""))
    M (fun j os => do
      let x ← A.read i j
      let os := os ++ render x
      if j < sizeSub M 1 then pure (os ++ " ") else pure os) os
    (by simp [String.intercalate])
    (by
      intro j t hj ht
      have hj' : j < (A.data_[i]).length := by omega
      have hread : A.read i j = some ((A.data_[i])[j]) := by
        simp [Matrix.read, List.getElem?_eq_getElem hi, List.getElem?_eq_getElem hj']
      have htake : (A.data_[i]).take (j + 1) = (A.data_[i]).take j ++ [(A.data_[i])[j]] := by
        rw [List.take_succ, List.getElem?_eq_getElem hj']; rfl
      have hsub : sizeSub M 1 = M - 1 := sizeSub_one M (by omega) hM
      rw [hsub]
      by_cases hj0 : j = 0
      · subst hj0
        by_cases hlast : 0 < M - 1
        · have h1 : 0 + 1 < M := by omega
          simp [hread, htake, hlast, h1, ht, String.intercalate, String.intercalate.go]
        · have h1 : ¬ (0 + 1 < M) := by omega
          simp [hread, htake, hlast, h1, ht, String.intercalate, String.intercalate.go]
      · have hpos : 0 < j := by omega
        have hne : ¬ ((A.data_[i]).take j = []) := by
          intro hnil
          have hl : ((A.data_[i]).take j).length = j := by
            rw [List.length_take]; omega
          rw [hnil] at hl
          simp at hl
          omega
        have hne' : ¬ (((A.data_[i]).take j).map render = []) := by simpa using hne
        by_cases hlast : j < M - 1
        · have h1 : j + 1 < M := by omega
          simp only [hread, htake, List.map_append, List.map_cons, List.map_nil,
            intercalate_snoc, if_neg hne', ht]
          simp [hlast, h1, hpos, hj, String.append_assoc]
        · have h1 : ¬ (j + 1 < M) := by omega
          simp only [hread, htake, List.map_append, List.map_cons, List.map_nil,
            intercalate_snoc, if_neg hne', ht]
          simp [hlast, h1, hpos, hj, String.append_assoc])
  obtain ⟨t, h1, h2⟩ := h
  rw [h1, h2]
  have : (A.data_[i]).take M = A.data_[i] := List.take_of_length_le (by omega)
  simp [this]

theorem print_text (render : T → String) (A : Matrix N M T) (hA : A.WF) (hM : M < SIZE_MOD)
    (os : String) : A.print render os = some (os ++ renderText render A.data_) := by
  have h := forLoop_inv
    (fun i (t : String) => t = os ++ renderText render (A.data_.take i))
    N (fun i os => do
      let os ← forLoop M (fun j os => do
        let x ← A.read i j
        let os := os ++ render x
        if j < sizeSub M 1 then pure (os ++ " ") else pure os) os
      pure (os ++ "\n")) os
    (by simp [renderText, String.join])
    (by
      intro i t hi ht
      have hi' : i < A.data_.length := by rw [hA.1]; exact hi
      have htake : A.data_.take (i + 1) = A.data_.take i ++ [A.data_[i]] := by
        rw [List.take_succ, List.getElem?_eq_getElem hi']; rfl
      refine ⟨t ++ renderRow render (A.data_[i]), ?_, ?_⟩
      · beta_reduce
        rw [print_row render A hA hM i hi' t]
        simp [renderRow, String.append_assoc]
      · beta_reduce
        rw [ht, htake]
        simp only [renderText, List.map_append, List.map_cons, List.map_nil, join_snoc,
          String.append_assoc])
  obtain ⟨t, h1, h2⟩ := h
  unfold Matrix.print
  rw [h1, h2]
  have : A.data_.take N = A.data_ := List.take_of_length_le (by rw [hA.1])
  rw [this]

/-! ## Entries of results, for comparing matrices -/

theorem val_of_read [Zero T] (A : Matrix N M T) (i j : Nat) (v : T)
    (h : A.read i j = some v) : A.val i j = v := by
  simp [Matrix.val, h]

/-- Matrices with the same in-range entries compare equal when Scalar
equality is reflexive. -/
theorem eq_of_val_eq [Zero T] [BEq T] (hrefl : ∀ x : T, (x == x) = true)
    (X Y : Matrix N M T) (hX : X.WF) (hY : Y.WF)
    (h : ∀ i j, i < N → j < M → X.val i j = Y.val i j) : X.eq Y = true :=
  (eq_cells X Y hX hY).2 (fun i j hi hj => by rw [h i j hi hj]; exact hrefl _)

theorem add_val [Zero T] [Add T] (A B : Matrix N M T) (hA : A.WF) (hB : B.WF) :
    ∃ R, A.add B = some R ∧ R.WF ∧
      ∀ i j, i < N → j < M → R.val i j = A.val i j + B.val i j := by
  obtain ⟨R, h1, h2, h3⟩ := addAssign_cells A B hA hB
  exact ⟨R, h1, h2, fun i j hi hj => val_of_read R i j _ (h3 i j hi hj)⟩

theorem sub_val [Zero T] [Sub T] (A B : Matrix N M T) (hA : A.WF) (hB : B.WF) :
    ∃ R, A.sub B = some R ∧ R.WF ∧
      ∀ i j, i < N → j < M → R.val i j = A.val i j - B.val i j := by
  obtain ⟨R, h1, h2, h3⟩ := subAssign_cells A B hA hB
  exact ⟨R, h1, h2, fun i j hi hj => val_of_read R i j _ (h3 i j hi hj)⟩

theorem mulScalar_outside [Mul T] (A : Matrix N M T) (c : T) :
    A.mulScalar (.outside c) = A.mulAssign (.outside c) := rfl

theorem scalarMul_val [Zero T] [Mul T] (c : T) (A : Matrix N M T) (hA : A.WF) :
    ∃ R, Matrix.scalarMul (.outside c) A = some R ∧ R.WF ∧
      ∀ i j, i < N → j < M → R.val i j = A.val i j * c := by
  obtain ⟨R, h1, h2, h3⟩ := mulAssign_cells A hA c
  exact ⟨R, h1, h2, fun i j hi hj => val_of_read R i j _ (h3 i j hi hj)⟩

theorem Transposed_val [Zero T] (A : Matrix N M T) (hA : A.WF) :
    ∃ R, A.Transposed = some R ∧ R.WF ∧
      ∀ i j, i < N → j < M → R.val j i = A.val i j := by
  obtain ⟨R, h1, h2, h3⟩ := Transposed_cells A hA
  exact ⟨R, h1, h2, fun i j hi hj => val_of_read R j i _ (h3 i j hi hj)⟩

theorem mul_val [Zero T] [Add T] [Mul T] (A : Matrix N M T) (B : Matrix M P T)
    (hA : A.WF) (hB : B.WF) :
    ∃ R, A.mul B = some R ∧ R.WF ∧
      ∀ i j, i < N → j < P → R.val i j = dotRow A B i j M := by
  obtain ⟨R, h1, h2, h3⟩ := mul_cells A B hA hB
  exact ⟨R, h1, h2, fun i j hi hj => val_of_read R i j _ (h3 i j hi hj)⟩

theorem read_isSome_iff (A : Matrix N M T) (i j : Nat) :
    (A.read i j).isSome = true ↔ ∃ row, A.data_[i]? = some row ∧ j < row.length := by
  unfold Matrix.read
  cases h : A.data_[i]? with
  | none => simp
  | some row =>
    simp only [Option.bind_eq_bind, Option.some_bind, Option.some.injEq, exists_eq_left']
    constructor
    · intro hs
      by_contra hlt
      rw [List.getElem?_eq_none (by omega)] at hs
      cases hs
    · intro hlt
      rw [List.getElem?_eq_getElem hlt]; rfl

theorem write_isSome_iff (A : Matrix N M T) (i j : Nat) (v : T) :
    (A.write i j v).isSome = true ↔ ∃ row, A.data_[i]? = some row ∧ j < row.length := by
  unfold Matrix.write
  cases h : A.data_[i]? with
  | none => simp
  | some row =>
    by_cases hlt : j < row.length
    · simp [hlt]
    · simp [hlt]

theorem read_in_range (A : Matrix N M T) (hA : A.WF) (i j : Nat) (hi : i < N) (hj : j < M) :
    ∃ x, A.read i j = some x := by
  have hi' : i < A.data_.length := by rw [hA.1]; exact hi
  have hlen : (A.data_[i]).length = M := hA.2 _ (List.getElem_mem hi')
  exact Option.isSome_iff_exists.1
    ((read_isSome_iff A i j).2 ⟨A.data_[i], List.getElem?_eq_getElem hi', by omega⟩)

/-- Scalar `*=` through any reference, also one to an element of the
receiver, runs to a rectangular result. -/
theorem mulAssign_WF [Mul T] (A : Matrix N M T) (hA : A.WF) (s : ScalarRef T)
    (hs : s.InRange N M) : ∃ R, A.mulAssign s = some R ∧ R.WF := by
  refine forLoop_inv (fun _ (X : Matrix N M T) => X.WF) N _ A hA ?_
  intro i X hi hX
  refine forLoop_inv (fun _ (Y : Matrix N M T) => Y.WF) M _ X hX ?_
  intro j Y hj hY
  obtain ⟨x, hx⟩ := read_in_range Y hY i j hi hj
  have hget : ∃ c, s.get Y = some c := by
    cases s with
    | outside v => exact ⟨v, rfl⟩
    | element a b => exact read_in_range Y hY a b hs.1 hs.2
  obtain ⟨c, hc⟩ := hget
  obtain ⟨R, hw, hR, _⟩ := write_spec Y hY i j hi hj (x * c)
  exact ⟨R, by simp [hx, hc, hw], hR⟩

/-- The out-of-place scalar products through any reference run to a
rectangular result with entries `A(i,j) * c`, where `c` is the value the
reference shows in `A`. -/
theorem mulScalar_ref [Zero T] [Mul T] (A : Matrix N M T) (hA : A.WF) (s : ScalarRef T)
    (hs : s.InRange N M) :
    ∃ R c, s.get A = some c ∧ A.mulScalar s = some R ∧ Matrix.scalarMul s A = some R ∧
      R.WF ∧ ∀ i j, i < N → j < M → R.read i j = some (A.val i j * c) := by
  have hget : ∃ c, s.get A = some c := by
    cases s with
    | outside v => exact ⟨v, rfl⟩
    | element a b => exact read_in_range A hA a b hs.1 hs.2
  obtain ⟨c, hc⟩ := hget
  obtain ⟨R, h1, h2, h3⟩ := mulAssign_cells A hA c
  have hm : A.mulScalar s = some R := by
    simp [Matrix.mulScalar, hc, h1]
  exact ⟨R, c, hc, hm, hm, h2, h3⟩

theorem print_isSome (render : T → String) (os : String) (A : Matrix N M T) (hA : A.WF) :
    ∃ text, A.print render os = some text := by
  have h := forLoop_inv (fun _ (_ : String) => True) N
    (fun i os => do
      let os ← forLoop M (fun j os => do
        let x ← A.read i j
        let os := os ++ render x
        if j < sizeSub M 1 then pure (os ++ " ") else pure os) os
      pure (os ++ "\n")) os trivial
    (by
      intro i t hi _
      have hin := forLoop_inv (fun _ (_ : String) => True) M
        (fun j os => do
          let x ← A.read i j
          let os := os ++ render x
          if j < sizeSub M 1 then pure (os ++ " ") else pure os) t trivial
        (by
          intro j u hj _
          obtain ⟨x, hx⟩ := read_in_range A hA i j hi hj
          by_cases hc : j < sizeSub M 1
          · exact ⟨u ++ render x ++ " ", by simp [hx, hc], trivial⟩
          · exact ⟨u ++ render x, by simp [hx, hc], trivial⟩)
      obtain ⟨u, hu, _⟩ := hin
      refine ⟨u ++ "\n", ?_, trivial⟩
      beta_reduce
      rw [hu]
      rfl)
  obtain ⟨text, h1, _⟩ := h
  exact ⟨text, h1⟩

theorem Mat2.add_def (x y : Mat2) :
    x + y = ⟨x.a + y.a, x.b + y.b, x.c + y.c, x.d + y.d⟩ := rfl

theorem Mat2.mul_def (x y : Mat2) :
    x * y = ⟨x.a * y.a + x.b * y.c, x.a * y.b + x.b * y.d,
      x.c * y.a + x.d * y.c, x.c * y.b + x.d * y.d⟩ := rfl

theorem Mat2.zero_def : (0 : Mat2) = ⟨0, 0, 0, 0⟩ := rfl

/-- The type `Mat2` has ring semantics: addition is associative and commutative
with identity `0`, multiplication is associative and distributes over
addition on both sides, and `==` is reflexive. -/
theorem Mat2.ring_laws :
    (∀ x y z : Mat2, x + y + z = x + (y + z)) ∧
    (∀ x y : Mat2, x + y = y + x) ∧
    (∀ x : Mat2, x + 0 = x ∧ 0 + x = x) ∧
    (∀ x y z : Mat2, x * y * z = x * (y * z)) ∧
    (∀ x y z : Mat2, x * (y + z) = x * y + x * z) ∧
    (∀ x y z : Mat2, (x + y) * z = x * z + y * z) ∧
    (∀ x : Mat2, (x == x) = true) := by
  refine ⟨?_, ?_, ?_, ?_, ?_, ?_, ?_⟩
  · intro x y z
    simp only [Mat2.add_def, Mat2.mk.injEq]
    refine ⟨?_, ?_, ?_, ?_⟩ <;> ring
  · intro x y
    simp only [Mat2.add_def, Mat2.mk.injEq]
    refine ⟨?_, ?_, ?_, ?_⟩ <;> ring
  · intro x
    constructor <;> simp [Mat2.add_def, Mat2.zero_def]
  · intro x y z
    simp only [Mat2.mul_def, Mat2.mk.injEq]
    refine ⟨?_, ?_, ?_, ?_⟩ <;> ring
  · intro x y z
    simp only [Mat2.mul_def, Mat2.add_def, Mat2.mk.injEq]
    refine ⟨?_, ?_, ?_, ?_⟩ <;> ring
  · intro x y z
    simp only [Mat2.mul_def, Mat2.add_def, Mat2.mk.injEq]
    refine ⟨?_, ?_, ?_, ?_⟩ <;> ring
  · intro x
    simp

/-! ## Sums -/

theorem foldl_add_eq_sum {R : Type} [AddCommMonoid R] (f : Nat → R) (n : Nat) :
    (List.range n).foldl (fun acc k => acc + f k) 0 = ∑ k in Finset.range n, f k := by
  induction n with
  | zero => simp
  | succ m ih => simp [List.range_succ, List.foldl_append, ih, Finset.sum_range_succ]

theorem dotRow_eq_sum {R : Type} [Semiring R] {Q : Nat} (A : Matrix N M R) (B : Matrix M P R)
    (i j : Nat) : dotRow A B i j Q = ∑ k in Finset.range Q, A.val i k * B.val k j :=
  foldl_add_eq_sum (fun k => A.val i k * B.val k j) Q

/-! ## The claims -/

/-- C1. For rectangular `A : N×M` and `B : M×P`, `operator*` returns an `N×P`
matrix `C` with rectangular store whose entry `(i, j)`, for every `i < N` and
`j < P`, is the sum of `A(i,k) * B(k,j)` added up from `T()` in increasing
`k = 0 .. M-1`; the dimensions may be `0`. -/
theorem mul_spec [Zero T] [Add T] [Mul T] (A : Matrix N M T) (B : Matrix M P T)
    (hA : A.WF) (hB : B.WF) :
    ∃ C, A.mul B = some C ∧ C.WF ∧
      ∀ i j, i < N → j < P →
        C.read i j = some ((List.range M).foldl (fun acc k => acc + A.val i k * B.val k j) 0) :=
  mul_cells A B hA hB

/-- C1 at `[[1,2],[3,4]] * [[5,6],[7,8]]`, which is `[[19,22],[43,50]]`. -/
theorem mul_spec_witness :
    (∃ C, (⟨[[1, 2], [3, 4]]⟩ : Matrix 2 2 Int).mul (⟨[[5, 6], [7, 8]]⟩ : Matrix 2 2 Int) = some C ∧
      C.WF ∧ ∀ i j, i < 2 → j < 2 →
        C.read i j = some ((List.range 2).foldl (fun acc k =>
          acc + (⟨[[1, 2], [3, 4]]⟩ : Matrix 2 2 Int).val i k *
            (⟨[[5, 6], [7, 8]]⟩ : Matrix 2 2 Int).val k j) 0)) ∧
    (⟨[[1, 2], [3, 4]]⟩ : Matrix 2 2 Int).mul (⟨[[5, 6], [7, 8]]⟩ : Matrix 2 2 Int)
      = some ⟨[[19, 22], [43, 50]]⟩ :=
  ⟨mul_spec _ _ (by simp [Matrix.WF]) (by simp [Matrix.WF]), by decide⟩

/-- C2. The row-data constructor produces a matrix exactly when the outer
sequence has `N` elements and every inner sequence has `M` elements; the
matrix it produces has the given data as its store, and otherwise there is no
matrix. -/
theorem ctorData_spec (N M : Nat) (data : List (List T)) :
    ((Matrix.ctorData N M data).isSome = true ↔
      (data.length = N ∧ ∀ row ∈ data, row.length = M)) ∧
    (∀ m, Matrix.ctorData N M data = some m →
      m.data_ = data ∧ ∀ i j, m.read i j = (data[i]?).bind (fun row => row[j]?)) ∧
    (¬ (data.length = N ∧ ∀ row ∈ data, row.length = M) →
      Matrix.ctorData N M data = none) := by
  rw [ctorData_eq]
  by_cases h : data.length = N ∧ ∀ row ∈ data, row.length = M
  · rw [if_pos h]
    refine ⟨⟨fun _ => h, fun _ => rfl⟩, ?_, fun hn => absurd h hn⟩
    intro m hm
    cases hm
    exact ⟨rfl, fun i j => rfl⟩
  · rw [if_neg h]
    refine ⟨⟨fun hs => ?_, fun hs => absurd hs h⟩, ?_, fun _ => rfl⟩
    · cases hs
    · intro m hm
      cases hm

/-- C2 at three rows given to a matrix with two rows: no matrix. -/
theorem ctorData_spec_witness :
    Matrix.ctorData 2 2 [[1, 2], [3, 4], [5, 6]] = (none : Option (Matrix 2 2 Int)) :=
  (ctorData_spec 2 2 [[(1 : Int), 2], [3, 4], [5, 6]]).2.2 (by decide)

/-- C3. For a rectangular `A : N×M`, `Transposed()` returns an `M×N` matrix
`R` with rectangular store and `R(j,i) = A(i,j)` for every `i < N`, `j < M`.
The method is a function of `A`, which it only reads. -/
theorem Transposed_spec [Zero T] (A : Matrix N M T) (hA : A.WF) :
    ∃ R, A.Transposed = some R ∧ R.WF ∧
      ∀ i j, i < N → j < M → R.read j i = some (A.val i j) ∧ A.read i j = some (A.val i j) := by
  obtain ⟨R, h1, h2, h3⟩ := Transposed_cells A hA
  exact ⟨R, h1, h2, fun i j hi hj => ⟨h3 i j hi hj, read_eq_some_val A hA i j hi hj⟩⟩

/-- C3 at `[[1,2,3],[4,5,6]]`, whose transpose is `[[1,4],[2,5],[3,6]]`. -/
theorem Transposed_spec_witness :
    (∃ R, (⟨[[1, 2, 3], [4, 5, 6]]⟩ : Matrix 2 3 Int).Transposed = some R ∧ R.WF ∧
      ∀ i j, i < 2 → j < 3 →
        R.read j i = some ((⟨[[1, 2, 3], [4, 5, 6]]⟩ : Matrix 2 3 Int).val i j) ∧
        (⟨[[1, 2, 3], [4, 5, 6]]⟩ : Matrix 2 3 Int).read i j
          = some ((⟨[[1, 2, 3], [4, 5, 6]]⟩ : Matrix 2 3 Int).val i j)) ∧
    (⟨[[1, 2, 3], [4, 5, 6]]⟩ : Matrix 2 3 Int).Transposed = some ⟨[[1, 4], [2, 5], [3, 6]]⟩ :=
  ⟨Transposed_spec _ (by simp [Matrix.WF]), by decide⟩

/-- C4. For a rectangular square `A : N×N` (also `N = 0`), `Trace()` returns
the sum of the diagonal entries `A(i,i)`, added up from `T()` in increasing
`i = 0 .. N-1`; a rectangular `B` with the same diagonal has the same trace,
whatever its other entries. -/
theorem Trace_spec [Zero T] [Add T] (A B : Matrix N N T) (hA : A.WF) (hB : B.WF) :
    A.Trace = some ((List.range N).foldl (fun acc i => acc + A.val i i) 0) ∧
    ((∀ i, i < N → B.val i i = A.val i i) → B.Trace = A.Trace) := by
  refine ⟨Trace_sum A hA, fun hdiag => ?_⟩
  rw [Trace_sum A hA, Trace_sum B hB]
  congr 1
  apply List.foldl_ext
  intro acc i hi
  rw [hdiag i (List.mem_range.1 hi)]

/-- C4 at a 3×3 matrix with diagonal `1, 5, 9`, whose trace is `15`. -/
theorem Trace_spec_witness :
    ((⟨[[1, 2, 3], [4, 5, 6], [7, 8, 9]]⟩ : Matrix 3 3 Int).Trace
        = some ((List.range 3).foldl (fun acc i =>
            acc + (⟨[[1, 2, 3], [4, 5, 6], [7, 8, 9]]⟩ : Matrix 3 3 Int).val i i) 0) ∧
      ((∀ i, i < 3 → (⟨[[1, 0, 0], [0, 5, 0], [0, 0, 9]]⟩ : Matrix 3 3 Int).val i i
          = (⟨[[1, 2, 3], [4, 5, 6], [7, 8, 9]]⟩ : Matrix 3 3 Int).val i i) →
        (⟨[[1, 0, 0], [0, 5, 0], [0, 0, 9]]⟩ : Matrix 3 3 Int).Trace
          = (⟨[[1, 2, 3], [4, 5, 6], [7, 8, 9]]⟩ : Matrix 3 3 Int).Trace)) ∧
    (⟨[[1, 2, 3], [4, 5, 6], [7, 8, 9]]⟩ : Matrix 3 3 Int).Trace = some 15 ∧
    (⟨[[1, 0, 0], [0, 5, 0], [0, 0, 9]]⟩ : Matrix 3 3 Int).Trace = some 15 :=
  ⟨Trace_spec _ _ (by simp [Matrix.WF]) (by simp [Matrix.WF]), by decide, by decide⟩

/-- C5. Rectangularity is an invariant of the store: the default, fill and
row-data constructors produce rectangular stores of the declared shape, and
on rectangular operands `+=`, `-=`, `+`, `-`, scalar `*=`, both scalar `*`,
matrix `*`, `Transposed` and a write through the accessor at an in-range
index return a matrix whose store is again rectangular of its declared
shape.  The scalar of `*=` and `*` is any reference: to an outside object
or to an element of the matrix operand. -/
theorem rectangular_invariant [Zero T] [Add T] [Sub T] [Mul T] :
    (Matrix.ctorDefault : Matrix N M T).WF ∧
    (∀ v : T, (Matrix.ctorFill v : Matrix N M T).WF) ∧
    (∀ (data : List (List T)) (m : Matrix N M T), Matrix.ctorData N M data = some m → m.WF) ∧
    (∀ A B : Matrix N M T, A.WF → B.WF →
      (∃ R, A.addAssign B = some R ∧ R.WF) ∧ (∃ R, A.subAssign B = some R ∧ R.WF) ∧
      (∃ R, A.add B = some R ∧ R.WF) ∧ (∃ R, A.sub B = some R ∧ R.WF)) ∧
    (∀ (A : Matrix N M T) (s : ScalarRef T), A.WF → s.InRange N M →
      (∃ R, A.mulAssign s = some R ∧ R.WF) ∧ (∃ R, A.mulScalar s = some R ∧ R.WF) ∧
      (∃ R, Matrix.scalarMul s A = some R ∧ R.WF)) ∧
    (∀ (A : Matrix N M T) (B : Matrix M P T), A.WF → B.WF → ∃ R, A.mul B = some R ∧ R.WF) ∧
    (∀ A : Matrix N M T, A.WF → ∃ R, A.Transposed = some R ∧ R.WF) ∧
    (∀ (A : Matrix N M T) (i j : Nat) (v : T), A.WF → i < N → j < M →
      ∃ R, A.write i j v = some R ∧ R.WF) := by
  refine ⟨ctorDefault_WF, ctorFill_WF, ?_, ?_, ?_, ?_, ?_, ?_⟩
  · intro data m hm
    rw [ctorData_eq] at hm
    by_cases h : data.length = N ∧ ∀ row ∈ data, row.length = M
    · rw [if_pos h] at hm
      cases hm
      exact h
    · rw [if_neg h] at hm
      cases hm
  · intro A B hA hB
    obtain ⟨R, h1, h2, _⟩ := addAssign_cells A B hA hB
    obtain ⟨S, h3, h4, _⟩ := subAssign_cells A B hA hB
    exact ⟨⟨R, h1, h2⟩, ⟨S, h3, h4⟩, ⟨R, h1, h2⟩, ⟨S, h3, h4⟩⟩
  · intro A s hA hs
    obtain ⟨R, _, _, h1, h2, h3, _⟩ := mulScalar_ref A hA s hs
    exact ⟨mulAssign_WF A hA s hs, ⟨R, h1, h3⟩, ⟨R, h2, h3⟩⟩
  · intro A B hA hB
    obtain ⟨R, h1, h2, _⟩ := mul_cells A B hA hB
    exact ⟨R, h1, h2⟩
  · intro A hA
    obtain ⟨R, h1, h2, _⟩ := Transposed_cells A hA
    exact ⟨R, h1, h2⟩
  · intro A i j v hA hi hj
    obtain ⟨R, h1, h2, _⟩ := write_spec A hA i j hi hj v
    exact ⟨R, h1, h2⟩

/-- C6. For rectangular `A`, `B` of one shape `N×M`, `A == B` is true exactly
when `A(i,j) == B(i,j)` is true for every `i < N` and `j < M`; so it is true
when `N = 0` or `M = 0`. -/
theorem eq_spec [Zero T] [BEq T] (A B : Matrix N M T) (hA : A.WF) (hB : B.WF) :
    (A.eq B = true ↔ ∀ i j, i < N → j < M → (A.val i j == B.val i j) = true) ∧
    (N = 0 ∨ M = 0 → A.eq B = true) := by
  refine ⟨eq_cells A B hA hB, fun h0 => (eq_cells A B hA hB).2 ?_⟩
  intro i j hi hj
  omega

/-- C6 at `[[1,2],[3,4]]` against `[[1,2],[3,5]]`, which differ at `(1,1)`. -/
theorem eq_spec_witness :
    (((⟨[[1, 2], [3, 4]]⟩ : Matrix 2 2 Int).eq ⟨[[1, 2], [3, 5]]⟩ = true ↔
        ∀ i j, i < 2 → j < 2 →
          ((⟨[[1, 2], [3, 4]]⟩ : Matrix 2 2 Int).val i j
            == (⟨[[1, 2], [3, 5]]⟩ : Matrix 2 2 Int).val i j) = true) ∧
      ((2 = 0 ∨ 2 = 0) → (⟨[[1, 2], [3, 4]]⟩ : Matrix 2 2 Int).eq ⟨[[1, 2], [3, 5]]⟩ = true)) ∧
    (⟨[[1, 2], [3, 4]]⟩ : Matrix 2 2 Int).eq ⟨[[1, 2], [3, 5]]⟩ = false ∧
    (⟨[[1, 2], [3, 4]]⟩ : Matrix 2 2 Int).eq ⟨[[1, 2], [3, 4]]⟩ = true :=
  ⟨eq_spec _ _ (by simp [Matrix.WF]) (by simp [Matrix.WF]), by decide, by decide⟩

/-- C7. For rectangular `A`, `B` of one shape, `A += B` returns the receiver
with every entry `(i,j)` equal to the old `A(i,j) + B(i,j)`, and `A + B`
returns that same matrix; likewise `A -= B` and `A - B` with
`A(i,j) - B(i,j)`. -/
theorem add_sub_spec [Zero T] [Add T] [Sub T] (A B : Matrix N M T) (hA : A.WF) (hB : B.WF) :
    (∃ R, A.addAssign B = some R ∧ A.add B = some R ∧ R.WF ∧
      ∀ i j, i < N → j < M → R.read i j = some (A.val i j + B.val i j)) ∧
    (∃ R, A.subAssign B = some R ∧ A.sub B = some R ∧ R.WF ∧
      ∀ i j, i < N → j < M → R.read i j = some (A.val i j - B.val i j)) := by
  obtain ⟨R, h1, h2, h3⟩ := addAssign_cells A B hA hB
  obtain ⟨S, h4, h5, h6⟩ := subAssign_cells A B hA hB
  exact ⟨⟨R, h1, h1, h2, h3⟩, ⟨S, h4, h4, h5, h6⟩⟩

/-- C7 at `[[1,2],[3,4]]` and `[[5,6],[7,8]]`. -/
theorem add_sub_spec_witness :
    ((∃ R, (⟨[[1, 2], [3, 4]]⟩ : Matrix 2 2 Int).addAssign ⟨[[5, 6], [7, 8]]⟩ = some R ∧
        (⟨[[1, 2], [3, 4]]⟩ : Matrix 2 2 Int).add ⟨[[5, 6], [7, 8]]⟩ = some R ∧ R.WF ∧
        ∀ i j, i < 2 → j < 2 → R.read i j
          = some ((⟨[[1, 2], [3, 4]]⟩ : Matrix 2 2 Int).val i j
              + (⟨[[5, 6], [7, 8]]⟩ : Matrix 2 2 Int).val i j)) ∧
      (∃ R, (⟨[[1, 2], [3, 4]]⟩ : Matrix 2 2 Int).subAssign ⟨[[5, 6], [7, 8]]⟩ = some R ∧
        (⟨[[1, 2], [3, 4]]⟩ : Matrix 2 2 Int).sub ⟨[[5, 6], [7, 8]]⟩ = some R ∧ R.WF ∧
        ∀ i j, i < 2 → j < 2 → R.read i j
          = some ((⟨[[1, 2], [3, 4]]⟩ : Matrix 2 2 Int).val i j
              - (⟨[[5, 6], [7, 8]]⟩ : Matrix 2 2 Int).val i j))) ∧
    (⟨[[1, 2], [3, 4]]⟩ : Matrix 2 2 Int).add ⟨[[5, 6], [7, 8]]⟩ = some ⟨[[6, 8], [10, 12]]⟩ ∧
    (⟨[[1, 2], [3, 4]]⟩ : Matrix 2 2 Int).sub ⟨[[5, 6], [7, 8]]⟩
      = some ⟨[[-4, -4], [-4, -4]]⟩ :=
  ⟨add_sub_spec _ _ (by simp [Matrix.WF]) (by simp [Matrix.WF]), by decide, by decide⟩

/-- C8 fails on the code at `a *= a(0, 0)` with `a = [[2,3,4]]`: the scalar is
a reference to the first element, which the first step overwrites with `4`,
so `*=` returns `[[4,12,16]]`, while `a * a(0, 0)` and `a(0, 0) * a`, which
multiply a copy, return `[[4,6,8]]`, every entry the old one times `2`. -/
theorem scalar_mul_alias :
    (⟨[[2, 3, 4]]⟩ : Matrix 1 3 Int).WF ∧
    (ScalarRef.element 0 0 : ScalarRef Int).get (⟨[[2, 3, 4]]⟩ : Matrix 1 3 Int) = some 2 ∧
    (⟨[[2, 3, 4]]⟩ : Matrix 1 3 Int).mulAssign (.element 0 0) = some ⟨[[4, 12, 16]]⟩ ∧
    (⟨[[2, 3, 4]]⟩ : Matrix 1 3 Int).mulScalar (.element 0 0) = some ⟨[[4, 6, 8]]⟩ ∧
    Matrix.scalarMul (.element 0 0) (⟨[[2, 3, 4]]⟩ : Matrix 1 3 Int) = some ⟨[[4, 6, 8]]⟩ ∧
    (⟨[[2, 3, 4]]⟩ : Matrix 1 3 Int).mulAssign (.outside 2) = some ⟨[[4, 6, 8]]⟩ :=
  ⟨by simp [Matrix.WF], by decide, by decide, by decide, by decide, by decide⟩

/-- C9. For a rectangular `A : N×M` (the column count a `size_t` value),
`operator<<` appends to the stream, for each row in order, the renderings of
the row's entries in column order joined by one space and followed by one
newline; so nothing is appended for a matrix with no rows. -/
theorem print_spec (render : T → String) (A : Matrix N M T) (os : String)
    (hA : A.WF) (hM : M < SIZE_MOD) :
    A.print render os = some (os ++ String.join
      (A.data_.map (fun row => " ".intercalate (row.map render) ++ "\n"))) ∧
    (N = 0 → A.print render os = some os) := by
  refine ⟨print_text render A hA hM os, fun h0 => ?_⟩
  subst h0
  simp [Matrix.print, forLoop_zero]

/-- C9 at `[[1,0],[0,1]]`, rendered as `"1 0\n0 1\n"`. -/
theorem print_spec_witness :
    ((⟨[[1, 0], [0, 1]]⟩ : Matrix 2 2 Int).print (fun x => toString x) ""
        = some ("" ++ String.join ((⟨[[1, 0], [0, 1]]⟩ : Matrix 2 2 Int).data_.map
            (fun row => " ".intercalate (row.map (fun x => toString x)) ++ "\n"))) ∧
      (2 = 0 → (⟨[[1, 0], [0, 1]]⟩ : Matrix 2 2 Int).print (fun x => toString x) ""
        = some "")) ∧
    (⟨[[1, 0], [0, 1]]⟩ : Matrix 2 2 Int).print (fun x => toString x) "" = some "1 0\n0 1\n" :=
  ⟨print_spec _ _ "" (by simp [Matrix.WF]) (by decide), by decide⟩

/-- C10. The fill constructor returns a rectangular `N×M` matrix whose entry
at every `i < N`, `j < M` is the given value, and the default constructor
returns the fill with `T()`. -/
theorem ctor_spec [Zero T] (v : T) :
    (Matrix.ctorFill v : Matrix N M T).WF ∧
    (∀ i j, i < N → j < M → (Matrix.ctorFill v : Matrix N M T).read i j = some v) ∧
    (Matrix.ctorDefault : Matrix N M T) = Matrix.ctorFill 0 ∧
    (∀ i j, i < N → j < M → (Matrix.ctorDefault : Matrix N M T).read i j = some 0) :=
  ⟨ctorFill_WF v, fun i j hi hj => ctorFill_read v i j hi hj, rfl,
    fun i j hi hj => ctorDefault_read i j hi hj⟩

/-- C11. At an in-range position `(i, j)` of a rectangular `A`, the accessor
returns the element stored at row `i`, column `j`, and writing `v` through
it yields a rectangular matrix whose entry `(i, j)` is `v` and whose every
other entry is unchanged. -/
theorem accessor_spec (A : Matrix N M T) (i j : Nat) (v : T) (hA : A.WF)
    (hi : i < N) (hj : j < M) :
    (∃ row x, A.data_[i]? = some row ∧ row[j]? = some x ∧ A.read i j = some x) ∧
    ∃ R, A.write i j v = some R ∧ R.WF ∧ R.read i j = some v ∧
      ∀ i' j', ¬ (i' = i ∧ j' = j) → R.read i' j' = A.read i' j' := by
  refine ⟨?_, write_spec A hA i j hi hj v⟩
  have hi' : i < A.data_.length := by rw [hA.1]; exact hi
  have hj' : j < (A.data_[i]).length := by rw [hA.2 _ (List.getElem_mem hi')]; exact hj
  exact ⟨A.data_[i], (A.data_[i])[j], List.getElem?_eq_getElem hi',
    List.getElem?_eq_getElem hj', by
      simp [Matrix.read, List.getElem?_eq_getElem hi', List.getElem?_eq_getElem hj']⟩

/-- C11 at `[[1,2],[3,4]]`, position `(0, 1)`, value `9`: the result is
`[[1,9],[3,4]]`. -/
theorem accessor_spec_witness :
    ((∃ row x, (⟨[[1, 2], [3, 4]]⟩ : Matrix 2 2 Int).data_[0]? = some row ∧
        row[1]? = some x ∧ (⟨[[1, 2], [3, 4]]⟩ : Matrix 2 2 Int).read 0 1 = some x) ∧
      ∃ R, (⟨[[1, 2], [3, 4]]⟩ : Matrix 2 2 Int).write 0 1 9 = some R ∧ R.WF ∧
        R.read 0 1 = some 9 ∧
        ∀ i' j', ¬ (i' = 0 ∧ j' = 1) →
          R.read i' j' = (⟨[[1, 2], [3, 4]]⟩ : Matrix 2 2 Int).read i' j') ∧
    (⟨[[1, 2], [3, 4]]⟩ : Matrix 2 2 Int).read 0 1 = some 2 ∧
    (⟨[[1, 2], [3, 4]]⟩ : Matrix 2 2 Int).write 0 1 9 = some ⟨[[1, 9], [3, 4]]⟩ :=
  ⟨accessor_spec _ 0 1 9 (by simp [Matrix.WF]) (by decide) (by decide), by decide, by decide⟩

/-- C12, as stated, fails: over the Scalar `Mat2`, which has ring semantics,
the 1×1 matrices `A = [[x]]`, `B = [[y]]` with `x = [[0,1],[0,0]]` and
`y = [[0,0],[1,0]]` give `(A * B).Transposed() = [[x * y]]` and
`B.Transposed() * A.Transposed() = [[y * x]]`, which `==` tells apart. -/
theorem transpose_mul_counterexample :
    ((∀ x y z : Mat2, x + y + z = x + (y + z)) ∧
      (∀ x y : Mat2, x + y = y + x) ∧
      (∀ x : Mat2, x + 0 = x ∧ 0 + x = x) ∧
      (∀ x y z : Mat2, x * y * z = x * (y * z)) ∧
      (∀ x y z : Mat2, x * (y + z) = x * y + x * z) ∧
      (∀ x y z : Mat2, (x + y) * z = x * z + y * z) ∧
      (∀ x : Mat2, (x == x) = true)) ∧
    (⟨[[⟨0, 1, 0, 0⟩]]⟩ : Matrix 1 1 Mat2).WF ∧ (⟨[[⟨0, 0, 1, 0⟩]]⟩ : Matrix 1 1 Mat2).WF ∧
    ∃ AB L BT AT R,
      (⟨[[⟨0, 1, 0, 0⟩]]⟩ : Matrix 1 1 Mat2).mul (⟨[[⟨0, 0, 1, 0⟩]]⟩ : Matrix 1 1 Mat2) = some AB ∧
      AB.Transposed = some L ∧
      (⟨[[⟨0, 0, 1, 0⟩]]⟩ : Matrix 1 1 Mat2).Transposed = some BT ∧
      (⟨[[⟨0, 1, 0, 0⟩]]⟩ : Matrix 1 1 Mat2).Transposed = some AT ∧
      BT.mul AT = some R ∧
      L = ⟨[[⟨1, 0, 0, 0⟩]]⟩ ∧ R = ⟨[[⟨0, 0, 0, 1⟩]]⟩ ∧ L.eq R = false :=
  ⟨Mat2.ring_laws, by simp [Matrix.WF], by simp [Matrix.WF],
    ⟨[[⟨1, 0, 0, 0⟩]]⟩, ⟨[[⟨1, 0, 0, 0⟩]]⟩, ⟨[[⟨0, 0, 1, 0⟩]]⟩, ⟨[[⟨0, 1, 0, 0⟩]]⟩,
    ⟨[[⟨0, 0, 0, 1⟩]]⟩, by decide, by decide, by decide, by decide, by decide, rfl, rfl,
    by decide⟩

/-- C12, amended. For a Scalar whose multiplication is commutative and whose
`==` is reflexive, and rectangular `A : N×M`, `B : M×P`,
`(A * B).Transposed() == B.Transposed() * A.Transposed()` is true. -/
theorem transpose_mul_spec [Zero T] [Add T] [Mul T] [BEq T]
    (A : Matrix N M T) (B : Matrix M P T) (hA : A.WF) (hB : B.WF)
    (hcomm : ∀ x y : T, x * y = y * x) (hrefl : ∀ x : T, (x == x) = true) :
    ∃ AB L BT AT R, A.mul B = some AB ∧ AB.Transposed = some L ∧
      B.Transposed = some BT ∧ A.Transposed = some AT ∧ BT.mul AT = some R ∧
      L.eq R = true := by
  obtain ⟨AB, hAB, hABwf, hABv⟩ := mul_val A B hA hB
  obtain ⟨L, hL, hLwf, hLv⟩ := Transposed_val AB hABwf
  obtain ⟨BT, hBT, hBTwf, hBTv⟩ := Transposed_val B hB
  obtain ⟨AT, hAT, hATwf, hATv⟩ := Transposed_val A hA
  obtain ⟨R, hR, hRwf, hRv⟩ := mul_val BT AT hBTwf hATwf
  refine ⟨AB, L, BT, AT, R, hAB, hL, hBT, hAT, hR, eq_of_val_eq hrefl L R hLwf hRwf ?_⟩
  intro j i hj hi
  rw [hLv i j hi hj, hABv i j hi hj, hRv j i hj hi]
  unfold dotRow
  apply List.foldl_ext
  intro acc k hk
  have hk' : k < M := List.mem_range.1 hk
  rw [hBTv k j hk' hj, hATv i k hi hk', hcomm]

/-- C12 amended, at `[[1,2],[3,4]]` and `[[5,6],[7,8]]` over the integers. -/
theorem transpose_mul_spec_witness :
    (∃ AB L BT AT R,
      (⟨[[1, 2], [3, 4]]⟩ : Matrix 2 2 Int).mul (⟨[[5, 6], [7, 8]]⟩ : Matrix 2 2 Int) = some AB ∧
      AB.Transposed = some L ∧
      (⟨[[5, 6], [7, 8]]⟩ : Matrix 2 2 Int).Transposed = some BT ∧
      (⟨[[1, 2], [3, 4]]⟩ : Matrix 2 2 Int).Transposed = some AT ∧
      BT.mul AT = some R ∧ L.eq R = true) ∧
    ((⟨[[1, 2], [3, 4]]⟩ : Matrix 2 2 Int).mul (⟨[[5, 6], [7, 8]]⟩ : Matrix 2 2 Int)).bind
      Matrix.Transposed = some ⟨[[19, 43], [22, 50]]⟩ :=
  ⟨transpose_mul_spec _ _ (by simp [Matrix.WF]) (by simp [Matrix.WF])
    (fun x y => Int.mul_comm x y) (fun x => by simp), by decide⟩

/-- C13, as stated for any Scalar type, fails: over the Scalar `NanInt` the 1×1
matrix `A = [[nan]]` is rectangular and transposing it twice returns
`[[nan]]` again, yet `A.Transposed().Transposed() == A` is false, because
`nan == nan` is false. -/
theorem transposed_involution_counterexample :
    (⟨[[NanInt.nan]]⟩ : Matrix 1 1 NanInt).WF ∧
    (NanInt.nan == NanInt.nan) = false ∧
    ∃ R1 R2, (⟨[[NanInt.nan]]⟩ : Matrix 1 1 NanInt).Transposed = some R1 ∧
      R1.Transposed = some R2 ∧ R2.data_ = [[NanInt.nan]] ∧
      R2.eq (⟨[[NanInt.nan]]⟩ : Matrix 1 1 NanInt) = false :=
  ⟨by simp [Matrix.WF], rfl, ⟨[[NanInt.nan]]⟩, ⟨[[NanInt.nan]]⟩, rfl, rfl, rfl, rfl⟩

/-- C13, amended. For a rectangular `A` of any shape, over a Scalar whose `==`
is reflexive, `A.Transposed().Transposed() == A` is true; the twice-transposed
matrix has the entries of `A` at every position. -/
theorem transposed_involution [Zero T] [BEq T] (A : Matrix N M T) (hA : A.WF)
    (hrefl : ∀ x : T, (x == x) = true) :
    ∃ R1 R2, A.Transposed = some R1 ∧ R1.Transposed = some R2 ∧ R2.eq A = true ∧
      ∀ i j, i < N → j < M → R2.read i j = A.read i j := by
  obtain ⟨R1, h1, hwf1, hv1⟩ := Transposed_val A hA
  obtain ⟨R2, h2, hwf2, hv2⟩ := Transposed_val R1 hwf1
  have hval : ∀ i j, i < N → j < M → R2.val i j = A.val i j := fun i j hi hj => by
    rw [hv2 j i hj hi, hv1 i j hi hj]
  refine ⟨R1, R2, h1, h2, eq_of_val_eq hrefl R2 A hwf2 hA hval, ?_⟩
  intro i j hi hj
  rw [read_eq_some_val R2 hwf2 i j hi hj, read_eq_some_val A hA i j hi hj, hval i j hi hj]

/-- C13 at the 2×3 matrix `[[1,2,3],[4,5,6]]`. -/
theorem transposed_involution_witness :
    (∃ R1 R2, (⟨[[1, 2, 3], [4, 5, 6]]⟩ : Matrix 2 3 Int).Transposed = some R1 ∧
      R1.Transposed = some R2 ∧ R2.eq ⟨[[1, 2, 3], [4, 5, 6]]⟩ = true ∧
      ∀ i j, i < 2 → j < 3 →
        R2.read i j = (⟨[[1, 2, 3], [4, 5, 6]]⟩ : Matrix 2 3 Int).read i j) ∧
    ((⟨[[1, 2, 3], [4, 5, 6]]⟩ : Matrix 2 3 Int).Transposed).bind Matrix.Transposed
      = some (⟨[[1, 2, 3], [4, 5, 6]]⟩ : Matrix 2 3 Int) :=
  ⟨transposed_involution _ (by simp [Matrix.WF]) (fun x => by simp), by decide⟩

/-- C14. For rectangular `A`, `B`, `C` of one shape over a Scalar whose
addition is associative and commutative (and whose `==` is reflexive),
`(A + B) + C == A + (B + C)` and `A + B == B + A` are true. -/
theorem add_assoc_comm_spec [AddCommSemigroup T] [Zero T] [BEq T]
    (A B C : Matrix N M T) (hA : A.WF) (hB : B.WF) (hC : C.WF)
    (hrefl : ∀ x : T, (x == x) = true) :
    ∃ AB ABC BC ABC' BA, A.add B = some AB ∧ AB.add C = some ABC ∧
      B.add C = some BC ∧ A.add BC = some ABC' ∧ B.add A = some BA ∧
      ABC.eq ABC' = true ∧ AB.eq BA = true := by
  obtain ⟨AB, h1, w1, v1⟩ := add_val A B hA hB
  obtain ⟨ABC, h2, w2, v2⟩ := add_val AB C w1 hC
  obtain ⟨BC, h3, w3, v3⟩ := add_val B C hB hC
  obtain ⟨ABC', h4, w4, v4⟩ := add_val A BC hA w3
  obtain ⟨BA, h5, w5, v5⟩ := add_val B A hB hA
  refine ⟨AB, ABC, BC, ABC', BA, h1, h2, h3, h4, h5,
    eq_of_val_eq hrefl ABC ABC' w2 w4 ?_, eq_of_val_eq hrefl AB BA w1 w5 ?_⟩
  · intro i j hi hj
    rw [v2 i j hi hj, v1 i j hi hj, v4 i j hi hj, v3 i j hi hj, add_assoc]
  · intro i j hi hj
    rw [v1 i j hi hj, v5 i j hi hj, add_comm]

/-- C14 at `[[1,2]]`, `[[3,4]]`, `[[5,6]]` over the integers. -/
theorem add_assoc_comm_spec_witness :
    (∃ AB ABC BC ABC' BA,
      (⟨[[1, 2]]⟩ : Matrix 1 2 Int).add ⟨[[3, 4]]⟩ = some AB ∧
      AB.add ⟨[[5, 6]]⟩ = some ABC ∧
      (⟨[[3, 4]]⟩ : Matrix 1 2 Int).add ⟨[[5, 6]]⟩ = some BC ∧
      (⟨[[1, 2]]⟩ : Matrix 1 2 Int).add BC = some ABC' ∧
      (⟨[[3, 4]]⟩ : Matrix 1 2 Int).add ⟨[[1, 2]]⟩ = some BA ∧
      ABC.eq ABC' = true ∧ AB.eq BA = true) ∧
    ((⟨[[1, 2]]⟩ : Matrix 1 2 Int).add ⟨[[3, 4]]⟩).bind (fun AB => AB.add ⟨[[5, 6]]⟩)
      = some ⟨[[9, 12]]⟩ :=
  ⟨add_assoc_comm_spec _ _ _ (by simp [Matrix.WF]) (by simp [Matrix.WF]) (by simp [Matrix.WF])
    (fun x => by simp), by decide⟩

/-- C15. For a rectangular `A` over a Scalar for which `T()` is an additive
identity (`x + T() = x`) and `==` is reflexive, `A + Z == A` is true, `Z` being
the default-constructed matrix of the same shape. -/
theorem add_zero_spec [Zero T] [Add T] [BEq T] (A : Matrix N M T) (hA : A.WF)
    (hzero : ∀ x : T, x + 0 = x) (hrefl : ∀ x : T, (x == x) = true) :
    ∃ R, A.add Matrix.ctorDefault = some R ∧ R.eq A = true := by
  obtain ⟨R, h1, w1, v1⟩ := add_val A Matrix.ctorDefault hA ctorDefault_WF
  refine ⟨R, h1, eq_of_val_eq hrefl R A w1 hA ?_⟩
  intro i j hi hj
  rw [v1 i j hi hj, val_of_read _ i j 0 (ctorDefault_read i j hi hj), hzero]

/-- C15 at `[[1,2],[3,4]]` over the integers. -/
theorem add_zero_spec_witness :
    (∃ R, (⟨[[1, 2], [3, 4]]⟩ : Matrix 2 2 Int).add Matrix.ctorDefault = some R ∧
      R.eq ⟨[[1, 2], [3, 4]]⟩ = true) ∧
    (⟨[[1, 2], [3, 4]]⟩ : Matrix 2 2 Int).add Matrix.ctorDefault
      = some ⟨[[1, 2], [3, 4]]⟩ :=
  ⟨add_zero_spec _ (by simp [Matrix.WF]) (fun x => Int.add_zero x) (fun x => by simp),
    by decide⟩

/-- C16. For a rectangular `A` over a Scalar with `x - x = T()` and reflexive
`==`, `A - A` compares equal to the default-constructed matrix of the same
shape. -/
theorem sub_self_spec [Zero T] [Sub T] [BEq T] (A : Matrix N M T) (hA : A.WF)
    (hsub : ∀ x : T, x - x = 0) (hrefl : ∀ x : T, (x == x) = true) :
    ∃ R, A.sub A = some R ∧ R.eq Matrix.ctorDefault = true := by
  obtain ⟨R, h1, w1, v1⟩ := sub_val A A hA hA
  refine ⟨R, h1, eq_of_val_eq hrefl R _ w1 ctorDefault_WF ?_⟩
  intro i j hi hj
  rw [v1 i j hi hj, val_of_read _ i j 0 (ctorDefault_read i j hi hj), hsub]

/-- C16 at `[[1,2],[3,4]]` over the integers. -/
theorem sub_self_spec_witness :
    (∃ R, (⟨[[1, 2], [3, 4]]⟩ : Matrix 2 2 Int).sub ⟨[[1, 2], [3, 4]]⟩ = some R ∧
      R.eq Matrix.ctorDefault = true) ∧
    (⟨[[1, 2], [3, 4]]⟩ : Matrix 2 2 Int).sub ⟨[[1, 2], [3, 4]]⟩
      = some Matrix.ctorDefault :=
  ⟨sub_self_spec _ (by simp [Matrix.WF]) (fun x => Int.sub_self x) (fun x => by simp),
    by decide⟩

/-- C17. For a scalar `s` and rectangular `A`, `B` of one shape over a Scalar
with ring semantics (and reflexive `==`), `(s * A) + (s * B) == s * (A + B)`
is true. -/
theorem scalar_distrib_spec [Ring T] [BEq T] (s : T) (A B : Matrix N M T)
    (hA : A.WF) (hB : B.WF) (hrefl : ∀ x : T, (x == x) = true) :
    ∃ sA sB L AB R, Matrix.scalarMul (.outside s) A = some sA ∧
      Matrix.scalarMul (.outside s) B = some sB ∧
      sA.add sB = some L ∧ A.add B = some AB ∧ Matrix.scalarMul (.outside s) AB = some R ∧
      L.eq R = true := by
  obtain ⟨sA, h1, w1, v1⟩ := scalarMul_val s A hA
  obtain ⟨sB, h2, w2, v2⟩ := scalarMul_val s B hB
  obtain ⟨L, h3, w3, v3⟩ := add_val sA sB w1 w2
  obtain ⟨AB, h4, w4, v4⟩ := add_val A B hA hB
  obtain ⟨R, h5, w5, v5⟩ := scalarMul_val s AB w4
  refine ⟨sA, sB, L, AB, R, h1, h2, h3, h4, h5, eq_of_val_eq hrefl L R w3 w5 ?_⟩
  intro i j hi hj
  rw [v3 i j hi hj, v1 i j hi hj, v2 i j hi hj, v5 i j hi hj, v4 i j hi hj, add_mul]

/-- C17 at `s = 3`, `[[1,2],[3,4]]` and `[[5,6],[7,8]]` over the integers. -/
theorem scalar_distrib_spec_witness :
    (∃ sA sB L AB R,
      Matrix.scalarMul (.outside 3) (⟨[[1, 2], [3, 4]]⟩ : Matrix 2 2 Int) = some sA ∧
      Matrix.scalarMul (.outside 3) (⟨[[5, 6], [7, 8]]⟩ : Matrix 2 2 Int) = some sB ∧
      sA.add sB = some L ∧
      (⟨[[1, 2], [3, 4]]⟩ : Matrix 2 2 Int).add ⟨[[5, 6], [7, 8]]⟩ = some AB ∧
      Matrix.scalarMul (.outside 3) AB = some R ∧ L.eq R = true) ∧
    ((⟨[[1, 2], [3, 4]]⟩ : Matrix 2 2 Int).add ⟨[[5, 6], [7, 8]]⟩).bind
      (Matrix.scalarMul (.outside 3))
      = some ⟨[[18, 24], [30, 36]]⟩ :=
  ⟨scalar_distrib_spec 3 _ _ (by simp [Matrix.WF]) (by simp [Matrix.WF]) (fun x => by simp),
    by decide⟩

/-- C18. For rectangular square `A`, `B` of one size over a Scalar with ring
semantics, `(A + B).Trace()` is `A.Trace() + B.Trace()`, and `==` between
them is true when it is reflexive. -/
theorem trace_add_spec [Ring T] [BEq T] (A B : Matrix N N T) (hA : A.WF) (hB : B.WF)
    (hrefl : ∀ x : T, (x == x) = true) :
    ∃ AB t ta tb, A.add B = some AB ∧ AB.Trace = some t ∧ A.Trace = some ta ∧
      B.Trace = some tb ∧ t = ta + tb ∧ (t == ta + tb) = true := by
  obtain ⟨AB, h1, w1, v1⟩ := add_val A B hA hB
  have key : (List.range N).foldl (fun acc i => acc + AB.val i i) 0
      = (List.range N).foldl (fun acc i => acc + A.val i i) 0
        + (List.range N).foldl (fun acc i => acc + B.val i i) 0 := by
    rw [foldl_add_eq_sum (fun i => AB.val i i), foldl_add_eq_sum (fun i => A.val i i),
      foldl_add_eq_sum (fun i => B.val i i), ← Finset.sum_add_distrib]
    apply Finset.sum_congr rfl
    intro i hi
    exact v1 i i (Finset.mem_range.1 hi) (Finset.mem_range.1 hi)
  exact ⟨AB, _, _, _, h1, Trace_sum AB w1, Trace_sum A hA, Trace_sum B hB, key, by
    rw [key]; exact hrefl _⟩

/-- C18 at `[[1,2],[3,4]]` and `[[5,6],[7,8]]` over the integers: `18 = 5 + 13`. -/
theorem trace_add_spec_witness :
    (∃ AB t ta tb, (⟨[[1, 2], [3, 4]]⟩ : Matrix 2 2 Int).add ⟨[[5, 6], [7, 8]]⟩ = some AB ∧
      AB.Trace = some t ∧ (⟨[[1, 2], [3, 4]]⟩ : Matrix 2 2 Int).Trace = some ta ∧
      (⟨[[5, 6], [7, 8]]⟩ : Matrix 2 2 Int).Trace = some tb ∧ t = ta + tb ∧
      (t == ta + tb) = true) ∧
    ((⟨[[1, 2], [3, 4]]⟩ : Matrix 2 2 Int).add ⟨[[5, 6], [7, 8]]⟩).bind Matrix.Trace = some 18 ∧
    (⟨[[1, 2], [3, 4]]⟩ : Matrix 2 2 Int).Trace = some 5 ∧
    (⟨[[5, 6], [7, 8]]⟩ : Matrix 2 2 Int).Trace = some 13 :=
  ⟨trace_add_spec _ _ (by simp [Matrix.WF]) (by simp [Matrix.WF]) (fun x => by simp),
    by decide, by decide, by decide⟩

/-- C19. Every element access inside the library's own operations is in
range: on rectangular stores of the declared shapes (zero rows or columns
included) `+=`, `-=`, scalar `*=`, matrix `*`, `Transposed`, `Trace` and
rendering run to their result, where a read or a write outside the store
(row index not below the row count, or column index not below that row's
length) would have stopped them. -/
theorem access_in_range [Zero T] [Add T] [Sub T] [Mul T] :
    (∀ (A : Matrix N M T) (i j : Nat),
      (A.read i j).isSome = true ↔ ∃ row, A.data_[i]? = some row ∧ j < row.length) ∧
    (∀ (A : Matrix N M T) (i j : Nat) (v : T),
      (A.write i j v).isSome = true ↔ ∃ row, A.data_[i]? = some row ∧ j < row.length) ∧
    (∀ A B : Matrix N M T, A.WF → B.WF →
      (∃ R, A.addAssign B = some R) ∧ (∃ R, A.subAssign B = some R)) ∧
    (∀ (A : Matrix N M T) (s : ScalarRef T), A.WF → s.InRange N M →
      ∃ R, A.mulAssign s = some R) ∧
    (∀ (A : Matrix N M T) (B : Matrix M P T), A.WF → B.WF → ∃ R, A.mul B = some R) ∧
    (∀ A : Matrix N M T, A.WF → ∃ R, A.Transposed = some R) ∧
    (∀ A : Matrix N N T, A.WF → ∃ t, A.Trace = some t) ∧
    (∀ (render : T → String) (os : String) (A : Matrix N M T), A.WF →
      ∃ text, A.print render os = some text) := by
  refine ⟨read_isSome_iff, write_isSome_iff, ?_, ?_, ?_, ?_, ?_, ?_⟩
  · intro A B hA hB
    obtain ⟨R, h1, _⟩ := addAssign_cells A B hA hB
    obtain ⟨S, h2, _⟩ := subAssign_cells A B hA hB
    exact ⟨⟨R, h1⟩, ⟨S, h2⟩⟩
  · intro A s hA hs
    obtain ⟨R, h1, _⟩ := mulAssign_WF A hA s hs
    exact ⟨R, h1⟩
  · intro A B hA hB
    obtain ⟨R, h1, _⟩ := mul_cells A B hA hB
    exact ⟨R, h1⟩
  · intro A hA
    obtain ⟨R, h1, _⟩ := Transposed_cells A hA
    exact ⟨R, h1⟩
  · intro A hA
    exact ⟨_, Trace_sum A hA⟩
  · intro render os A hA
    exact print_isSome render os A hA

/-- C20. For rectangular `A : N×M`, `B : M×P`, `C : P×Q` over a Scalar with
ring semantics (and reflexive `==`), `(A * B) * C == A * (B * C)` is true. -/
theorem mul_assoc_spec [Ring T] [BEq T] {Q : Nat} (A : Matrix N M T) (B : Matrix M P T)
    (C : Matrix P Q T) (hA : A.WF) (hB : B.WF) (hC : C.WF)
    (hrefl : ∀ x : T, (x == x) = true) :
    ∃ AB L BC R, A.mul B = some AB ∧ AB.mul C = some L ∧ B.mul C = some BC ∧
      A.mul BC = some R ∧ L.eq R = true := by
  obtain ⟨AB, h1, w1, v1⟩ := mul_val A B hA hB
  obtain ⟨L, h2, w2, v2⟩ := mul_val AB C w1 hC
  obtain ⟨BC, h3, w3, v3⟩ := mul_val B C hB hC
  obtain ⟨R, h4, w4, v4⟩ := mul_val A BC hA w3
  refine ⟨AB, L, BC, R, h1, h2, h3, h4, eq_of_val_eq hrefl L R w2 w4 ?_⟩
  intro i j hi hj
  rw [v2 i j hi hj, v4 i j hi hj, dotRow_eq_sum, dotRow_eq_sum]
  have hl : ∑ l in Finset.range P, AB.val i l * C.val l j
      = ∑ l in Finset.range P, ∑ k in Finset.range M, A.val i k * B.val k l * C.val l j := by
    apply Finset.sum_congr rfl
    intro l hl
    rw [v1 i l hi (Finset.mem_range.1 hl), dotRow_eq_sum, Finset.sum_mul]
  have hr : ∑ k in Finset.range M, A.val i k * BC.val k j
      = ∑ k in Finset.range M, ∑ l in Finset.range P, A.val i k * B.val k l * C.val l j := by
    apply Finset.sum_congr rfl
    intro k hk
    rw [v3 k j (Finset.mem_range.1 hk) hj, dotRow_eq_sum, Finset.mul_sum]
    apply Finset.sum_congr rfl
    intro l _
    rw [mul_assoc]
  rw [hl, hr, Finset.sum_comm]

/-- C20 at `[[1,2],[3,4]]`, `[[5,6],[7,8]]` and `[[1],[2]]` over the integers:
both sides are `[[63],[143]]`. -/
theorem mul_assoc_spec_witness :
    (∃ AB L BC R,
      (⟨[[1, 2], [3, 4]]⟩ : Matrix 2 2 Int).mul (⟨[[5, 6], [7, 8]]⟩ : Matrix 2 2 Int) = some AB ∧
      AB.mul (⟨[[1], [2]]⟩ : Matrix 2 1 Int) = some L ∧
      (⟨[[5, 6], [7, 8]]⟩ : Matrix 2 2 Int).mul (⟨[[1], [2]]⟩ : Matrix 2 1 Int) = some BC ∧
      (⟨[[1, 2], [3, 4]]⟩ : Matrix 2 2 Int).mul BC = some R ∧ L.eq R = true) ∧
    ((⟨[[1, 2], [3, 4]]⟩ : Matrix 2 2 Int).mul (⟨[[5, 6], [7, 8]]⟩ : Matrix 2 2 Int)).bind
      (fun AB => AB.mul (⟨[[1], [2]]⟩ : Matrix 2 1 Int)) = some ⟨[[63], [143]]⟩ ∧
    ((⟨[[5, 6], [7, 8]]⟩ : Matrix 2 2 Int).mul (⟨[[1], [2]]⟩ : Matrix 2 1 Int)).bind
      (fun BC => (⟨[[1, 2], [3, 4]]⟩ : Matrix 2 2 Int).mul BC) = some ⟨[[63], [143]]⟩ :=
  ⟨mul_assoc_spec _ _ _ (by simp [Matrix.WF]) (by simp [Matrix.WF]) (by simp [Matrix.WF])
    (fun x => by simp), by decide, by decide⟩

end MIPT
